import Mathlib

/-!
Verification development for the mi-flora-exporter sensor discovery and
synchronization engine.

Go values are shallowly embedded as follows:
* `[]byte` and Go strings become `List Nat` (one entry per byte; all example
  data is ASCII, where Go's byte-wise string order coincides with the order
  modelled here);
* machine integers become `Nat`/`Int` with explicit `% 2^w` where overflow
  matters;
* functions that can terminate the program with a runtime panic (index out
  of range, or the decoder's explicit abort on an unknown measurement id)
  return `Except RuntimeFault _`, keeping the distinction between a Go
  `nil` return (`.ok none`), a successful value (`.ok (some _)`) and an
  unrecoverable abort (`.error _`).
-/

/-- Outcome of a Go runtime abort: either an out-of-range slice/index access,
or the decoder's explicit abort on an unrecognized measurement-kind id
(`unknown value: % x` in `XiaomiData.Values`). -/
inductive RuntimeFault where
  | indexOutOfRange : RuntimeFault
  | unknownValue : Nat → RuntimeFault
deriving DecidableEq, Repr

deriving instance DecidableEq for Except

/-- Go indexing `d[i]`: the byte when `i` is in range, a runtime fault
otherwise. -/
def byteAt (d : List Nat) (i : Nat) : Except RuntimeFault Nat :=
  if h : i < d.length then .ok d[i] else .error .indexOutOfRange

/-- Go slicing `d[a:b]`: defined when `a ≤ b ≤ len(d)`, a runtime fault
otherwise. -/
def goSlice (d : List Nat) (a b : Nat) : Except RuntimeFault (List Nat) :=
  if a ≤ b ∧ b ≤ d.length then .ok ((d.drop a).take (b - a)) else .error .indexOutOfRange

/-- `binary.LittleEndian.Uint16` applied to two bytes: `b0 | b1<<8`. -/
def le16 (b0 b1 : Nat) : Nat := b0 + 256 * b1

/-- `binary.LittleEndian.Uint16` applied to a byte slice: needs at least two
bytes, otherwise Go faults on the bounds check. -/
def le16Of (d : List Nat) : Except RuntimeFault Nat :=
  match d with
  | b0 :: b1 :: _ => .ok (le16 b0 b1)
  | _ => .error .indexOutOfRange

/-- Go's `int16(v)` reinterpretation of a `uint16` value. -/
def toInt16 (v : Nat) : Int :=
  if v % 65536 < 32768 then ((v % 65536 : Nat) : Int) else ((v % 65536 : Nat) : Int) - 65536

/-! ## miflora/model/model.go -/

/-- `type Temperature int16` (the raw value; `Value` applies the scaling). -/
abbrev Temperature := Int

/-- `func (t Temperature) Value() float64 { return float64(t) / 10 }`.
The float64 arithmetic is modelled exactly over `ℚ`. -/
def Temperature.Value (t : Temperature) : ℚ := (t : ℚ) / 10

/-- `type Conductivity uint16`. -/
abbrev Conductivity := Nat

/-- `func (c Conductivity) Value() float64 { return float64(c) / 10000 }`.
The float64 arithmetic is modelled exactly over `ℚ`. -/
def Conductivity.Value (c : Conductivity) : ℚ := (c : ℚ) / 10000

/-- `model.Measurement`: four independently-optional readings. The Go zero
value (`var measurement model.Measurement`) has every field `nil`. -/
structure Measurement where
  temperature : Option Temperature := none
  moisture : Option Nat := none
  brightness : Option Nat := none
  conductivity : Option Conductivity := none
deriving DecidableEq, Repr

/-! ## miflora/advertisements (src/unnamed/part_002) -/

def flagNewFactory : Nat := 1 <<< 0
def flagConnected : Nat := 1 <<< 1
def flagCentral : Nat := 1 <<< 2
def flagEncrypted : Nat := 1 <<< 3
def flagMacAddress : Nat := 1 <<< 4
def flagCapabilities : Nat := 1 <<< 5
def flagMeasurment : Nat := 1 <<< 6
def flagCustomData : Nat := 1 <<< 7
def flagSubtitle : Nat := 1 <<< 8
def flagBinding : Nat := 1 <<< 9

def measurementTemperature : Nat := 0x1004
def measurementBrightness : Nat := 0x1007
def measurementMoisture : Nat := 0x1008
def measurementFertility : Nat := 0x1009
def measurementBattery : Nat := 0x100a
def measurementTemperatureAndHumidity : Nat := 0x100d

/-- `advertisements.XiaomiData`: a parsed view over the raw advertisement
bytes. -/
structure XiaomiData where
  data : List Nat
deriving DecidableEq, Repr

/-- `advertisements.New`: accepts the frame only when it is at least 5 bytes
long. -/
def New (d : List Nat) : Except String XiaomiData :=
  if d.length < 5 then
    .error "A miflora advertisement frame must be at least 5 bytes long"
  else
    .ok ⟨d⟩

/-- `binary.LittleEndian.Uint16(x.data[0:2])`. `New` guarantees at least
5 bytes, so the `getD` defaults are never hit on accepted frames. -/
def XiaomiData.rawHeader (x : XiaomiData) : Nat :=
  le16 (x.data.getD 0 0) (x.data.getD 1 0)

/-- `x.flags()`: the low 12 bits of the header word. -/
def XiaomiData.flags (x : XiaomiData) : Nat := x.rawHeader &&& 0x0fff

def XiaomiData.isNewFactory (x : XiaomiData) : Bool := (x.flags &&& flagNewFactory) != 0
def XiaomiData.isConnected (x : XiaomiData) : Bool := (x.flags &&& flagConnected) != 0
def XiaomiData.isCentral (x : XiaomiData) : Bool := (x.flags &&& flagCentral) != 0
def XiaomiData.isEncrypted (x : XiaomiData) : Bool := (x.flags &&& flagEncrypted) != 0
def XiaomiData.hasMacAddress (x : XiaomiData) : Bool := (x.flags &&& flagMacAddress) != 0
def XiaomiData.hasCapabilities (x : XiaomiData) : Bool := (x.flags &&& flagCapabilities) != 0
def XiaomiData.hasMeasurement (x : XiaomiData) : Bool := (x.flags &&& flagMeasurment) != 0
def XiaomiData.isCustomData (x : XiaomiData) : Bool := (x.flags &&& flagCustomData) != 0
def XiaomiData.isSubtitle (x : XiaomiData) : Bool := (x.flags &&& flagSubtitle) != 0
def XiaomiData.isBindingFrame (x : XiaomiData) : Bool := (x.flags &&& flagBinding) != 0

/-- `x.Version()`: `uint8(header >> 12)` (the cast is `% 256`). -/
def XiaomiData.Version (x : XiaomiData) : Nat := (x.rawHeader >>> 12) % 256

/-- `x.ProductID()`: `binary.LittleEndian.Uint16(x.data[2:4])`. -/
def XiaomiData.ProductID (x : XiaomiData) : Nat :=
  le16 (x.data.getD 2 0) (x.data.getD 3 0)

/-- `x.FrameCounter()`: `x.data[4]`. -/
def XiaomiData.FrameCounter (x : XiaomiData) : Nat := x.data.getD 4 0

def XiaomiData.macAddressOffset (_ : XiaomiData) : Nat := 5

/-- `x.MacAddress()`: `nil` when the flag is clear; otherwise six bytes read
in reverse order (`mac[pos] = x.data[offset+(5-pos)]`). The loop's first
read touches the highest index, so any out-of-range access faults. -/
def XiaomiData.MacAddress (x : XiaomiData) : Except RuntimeFault (Option (List Nat)) :=
  if x.hasMacAddress then
    match byteAt x.data (x.macAddressOffset + 5), byteAt x.data (x.macAddressOffset + 4),
        byteAt x.data (x.macAddressOffset + 3), byteAt x.data (x.macAddressOffset + 2),
        byteAt x.data (x.macAddressOffset + 1), byteAt x.data x.macAddressOffset with
    | .ok b0, .ok b1, .ok b2, .ok b3, .ok b4, .ok b5 => .ok (some [b0, b1, b2, b3, b4, b5])
    | _, _, _, _, _, _ => .error .indexOutOfRange
  else .ok none

/-- `x.capabiltiesOffset()` (source spelling): shifted past the MAC address
only when the MAC flag is set. -/
def XiaomiData.capabiltiesOffset (x : XiaomiData) : Nat :=
  x.macAddressOffset + (if x.hasMacAddress then 6 else 0)

/-- `x.Capabilities()`: reads `x.data[x.capabiltiesOffset()]` without
consulting the `hasCapabilities` flag. -/
def XiaomiData.Capabilities (x : XiaomiData) : Except RuntimeFault Nat :=
  byteAt x.data x.capabiltiesOffset

/-- `x.valuesOffset()`: shifted past the capability byte only when the
capability flag is set. -/
def XiaomiData.valuesOffset (x : XiaomiData) : Nat :=
  x.capabiltiesOffset + (if x.hasCapabilities then 1 else 0)

/-- `x.Values()`: `nil` when the measurement flag is clear; otherwise reads
the 2-byte measurement-kind id, the 1-byte length, the payload slice, and
dispatches on the id. An unrecognized id aborts with
`panic(fmt.Sprintf("unknown value: % x", id))`, modelled as
`.error (.unknownValue id)`. -/
def XiaomiData.Values (x : XiaomiData) : Except RuntimeFault (Option Measurement) :=
  if x.hasMeasurement then
    match goSlice x.data x.valuesOffset (x.valuesOffset + 2) with
    | .error e => .error e
    | .ok idBytes =>
      match le16Of idBytes with
      | .error e => .error e
      | .ok id =>
        match byteAt x.data (x.valuesOffset + 2) with
        | .error e => .error e
        | .ok len =>
          match goSlice x.data (x.valuesOffset + 3) (x.valuesOffset + 3 + len) with
          | .error e => .error e
          | .ok payload =>
            if id = measurementTemperature then
              match le16Of payload with
              | .error e => .error e
              | .ok v => .ok (some { temperature := some (toInt16 v) })
            else if id = measurementBrightness then
              match le16Of payload with
              | .error e => .error e
              | .ok v => .ok (some { brightness := some v })
            else if id = measurementMoisture then
              match payload with
              | [] => .error .indexOutOfRange
              | b :: _ => .ok (some { moisture := some b })
            else if id = measurementFertility then
              match le16Of payload with
              | .error e => .error e
              | .ok v => .ok (some { conductivity := some v })
            else .error (.unknownValue id)
  else .ok none

/-! ## Concrete advertisement frames from the test vectors -/

/-- Bytes of hex `71209800da795d658d7cc40d0410021201`. -/
def adv1 : List Nat :=
  [0x71, 0x20, 0x98, 0x00, 0xda, 0x79, 0x5d, 0x65, 0x8d, 0x7c, 0xc4, 0x0d,
   0x04, 0x10, 0x02, 0x12, 0x01]

/-- Bytes of hex `71209800da795d658d7cc40d041002e7ff`. -/
def adv2 : List Nat :=
  [0x71, 0x20, 0x98, 0x00, 0xda, 0x79, 0x5d, 0x65, 0x8d, 0x7c, 0xc4, 0x0d,
   0x04, 0x10, 0x02, 0xe7, 0xff]

/-- C1: decoding the advertisement bytes of hex
`71209800da795d658d7cc40d0410021201` yields version 2, product id 0x0098,
MAC address `c4:7c:8d:65:5d:79`, capability byte 0x0d and a measurement
whose temperature value is 27.4; decoding the bytes of hex
`71209800da795d658d7cc40d041002e7ff` yields temperature value -2.5. -/
theorem C1_decode_examples :
    (∃ x : XiaomiData, New adv1 = .ok x ∧
      x.Version = 2 ∧ x.ProductID = 0x0098 ∧
      x.MacAddress = .ok (some [0xc4, 0x7c, 0x8d, 0x65, 0x5d, 0x79]) ∧
      x.Capabilities = .ok 0x0d ∧
      ∃ m : Measurement, x.Values = .ok (some m) ∧
      ∃ t : Temperature, m.temperature = some t ∧ Temperature.Value t = 27.4) ∧
    (∃ y : XiaomiData, New adv2 = .ok y ∧
      ∃ m : Measurement, y.Values = .ok (some m) ∧
      ∃ t : Temperature, m.temperature = some t ∧ Temperature.Value t = -2.5) := by
  refine ⟨⟨⟨adv1⟩, by decide, by decide, by decide, by decide, by decide,
    ⟨{ temperature := some 274 }, by decide, 274, by decide, ?_⟩⟩,
    ⟨⟨adv2⟩, by decide,
    ⟨{ temperature := some (-25) }, by decide, -25, by decide, ?_⟩⟩⟩
  · show (274 : ℚ) / 10 = 27.4
    norm_num
  · show ((-25 : ℚ)) / 10 = -2.5
    norm_num

/-- A 6-byte frame accepted by `New` whose flag word is zero: no MAC
address, no capability flag, no measurement, but one trailing byte after
the 5-byte header. -/
def cexFrame : List Nat := [0x00, 0x00, 0x98, 0x00, 0xda, 0xab]

/-- C2 counterexample: an accepted frame whose `hasCapabilities` bit is
clear, yet `Capabilities()` still returns a (present) byte — the accessor
never consults the flag, so presence of the capability byte is not
determined by its flag bit. -/
theorem C2_counterexample :
    New cexFrame = .ok ⟨cexFrame⟩ ∧
    (XiaomiData.mk cexFrame).hasCapabilities = false ∧
    (XiaomiData.mk cexFrame).Capabilities = .ok 0xab := by
  decide

/-- C2 (amended): for every advertisement frame accepted by the decoder,
`MacAddress` returns the absent value exactly when `hasMacAddress` is clear
and a present value only when it is set; the measurement sub-record is
absent exactly when `hasMeasurement` is clear and present only when it is
set; but the capability byte is read at the computed offset unconditionally,
without consulting `hasCapabilities`. -/
lemma macAddress_ok_none_iff (x : XiaomiData) :
    x.MacAddress = .ok none ↔ x.hasMacAddress = false := by
  cases hb : x.hasMacAddress
  · simp [XiaomiData.MacAddress, hb]
  · simp only [XiaomiData.MacAddress, hb, if_true]
    constructor
    · intro hc
      exfalso
      revert hc
      repeat' split
      all_goals simp
    · intro hfalse
      cases hfalse

lemma values_ok_none_iff (x : XiaomiData) :
    x.Values = .ok none ↔ x.hasMeasurement = false := by
  cases hb : x.hasMeasurement
  · simp [XiaomiData.Values, hb]
  · simp only [XiaomiData.Values, hb, if_true]
    constructor
    · intro hc
      exfalso
      revert hc
      repeat' split
      all_goals simp
    · intro hfalse
      cases hfalse

theorem C2_presence_flags (d : List Nat) (x : XiaomiData) (h : New d = .ok x) :
    (x.MacAddress = .ok none ↔ x.hasMacAddress = false) ∧
    (∀ v, x.MacAddress = .ok (some v) → x.hasMacAddress = true) ∧
    (x.Values = .ok none ↔ x.hasMeasurement = false) ∧
    (∀ m, x.Values = .ok (some m) → x.hasMeasurement = true) ∧
    x.Capabilities = byteAt x.data x.capabiltiesOffset := by
  refine ⟨macAddress_ok_none_iff x, ?_, values_ok_none_iff x, ?_, rfl⟩
  · intro v hv
    cases hb : x.hasMacAddress
    · rw [XiaomiData.MacAddress.eq_def, hb] at hv
      simp at hv
    · rfl
  · intro m hv
    cases hb : x.hasMeasurement
    · rw [XiaomiData.Values.eq_def, hb] at hv
      simp at hv
    · rfl

/-- Witness for C2 (amended) at the first test vector. -/
theorem C2_presence_flags_witness :
    New adv1 = .ok ⟨adv1⟩ ∧
    (((XiaomiData.mk adv1).MacAddress = .ok none ↔ (XiaomiData.mk adv1).hasMacAddress = false) ∧
     (∀ v, (XiaomiData.mk adv1).MacAddress = .ok (some v) → (XiaomiData.mk adv1).hasMacAddress = true) ∧
     ((XiaomiData.mk adv1).Values = .ok none ↔ (XiaomiData.mk adv1).hasMeasurement = false) ∧
     (∀ m, (XiaomiData.mk adv1).Values = .ok (some m) → (XiaomiData.mk adv1).hasMeasurement = true) ∧
     (XiaomiData.mk adv1).Capabilities = byteAt (XiaomiData.mk adv1).data (XiaomiData.mk adv1).capabiltiesOffset) :=
  ⟨by decide, C2_presence_flags adv1 ⟨adv1⟩ (by decide)⟩

/-- A frame whose measurement-kind id is the declared-but-unhandled
`measurementTemperatureAndHumidity` (0x100d): hex
`40009800000d1004aabbccdd`. -/
def advUnknownId : List Nat :=
  [0x40, 0x00, 0x98, 0x00, 0x00, 0x0d, 0x10, 0x04, 0xaa, 0xbb, 0xcc, 0xdd]

/-- C3: on an accepted frame whose `hasMeasurement` flag is set but whose
measurement-kind id is not one of the recognized ids, `Values` hits
`panic(fmt.Sprintf("unknown value: % x", id))` — an unrecoverable runtime
abort (modelled `.error (.unknownValue id)`), not a typed `DecodeError`
returned to the caller as the spec requires. -/
theorem C3_unknown_id_aborts :
    New advUnknownId = .ok ⟨advUnknownId⟩ ∧
    (XiaomiData.mk advUnknownId).hasMeasurement = true ∧
    (XiaomiData.mk advUnknownId).Values =
      .error (.unknownValue measurementTemperatureAndHumidity) := by
  decide

/-- C4: for every raw signed 16-bit value `t`, `Temperature(t).Value()`
equals `t * 0.1` (including negative `t`), and for every raw unsigned
16-bit value `c`, `Conductivity(c).Value()` equals `c * 0.0001`. -/
theorem C4_value_scaling (t : Temperature) (ht1 : -32768 ≤ t) (ht2 : t < 32768)
    (c : Conductivity) (hc : c < 65536) :
    Temperature.Value t = (t : ℚ) * 0.1 ∧ Conductivity.Value c = (c : ℚ) * 0.0001 := by
  constructor
  · show (t : ℚ) / 10 = (t : ℚ) * 0.1
    norm_num
    ring
  · show (c : ℚ) / 10000 = (c : ℚ) * 0.0001
    norm_num
    ring

/-! ## Go strings as byte lists

Go strings are immutable byte sequences; `<`, `==` and `>=` compare them
byte-wise lexicographically. They are modelled as `List Nat` (one entry per
byte; all data handled here is ASCII). -/

abbrev GoStr := List Nat

/-- Bytes of an ASCII string literal. -/
def goStr (s : String) : GoStr := s.data.map Char.toNat

/-- Go's `<` on strings: byte-wise lexicographic comparison. -/
def goStrLtb : GoStr → GoStr → Bool
  | [], [] => false
  | [], _ :: _ => true
  | _ :: _, [] => false
  | a :: x, b :: y => if a < b then true else if b < a then false else goStrLtb x y

lemma goStrLtb_self (a : GoStr) : goStrLtb a a = false := by
  induction a with
  | nil => rfl
  | cons h t ih => simp [goStrLtb, ih]

lemma goStrLtb_trans (a : GoStr) :
    ∀ b c : GoStr, goStrLtb a b = true → goStrLtb b c = true → goStrLtb a c = true := by
  induction a with
  | nil =>
    intro b c hab hbc
    cases c with
    | nil =>
      cases b with
      | nil => exact hab
      | cons hb tb => simp [goStrLtb] at hbc
    | cons hc tc => simp [goStrLtb]
  | cons ha ta ih =>
    intro b c hab hbc
    cases b with
    | nil => simp [goStrLtb] at hab
    | cons hb tb =>
      cases c with
      | nil => simp [goStrLtb] at hbc
      | cons hc tc =>
        simp only [goStrLtb] at hab hbc ⊢
        by_cases h1 : ha < hb
        · by_cases h2 : hb < hc
          · simp [show ha < hc by omega]
          · simp only [h2, if_false] at hbc
            by_cases h3 : hc < hb
            · simp [h3] at hbc
            · simp [show ha < hc by omega]
        · simp only [h1, if_false] at hab
          by_cases h1' : hb < ha
          · simp [h1'] at hab
          · by_cases h2 : hb < hc
            · simp [show ha < hc by omega]
            · simp only [h2, if_false] at hbc
              by_cases h3 : hc < hb
              · simp [h3] at hbc
              · have hac : ¬ha < hc := by omega
                have hca : ¬hc < ha := by omega
                simp only [hac, hca, if_false]
                exact ih tb tc (by simpa [h1, h1'] using hab) (by simpa [h2, h3] using hbc)

lemma goStrLtb_eq_of_not (a : GoStr) :
    ∀ b : GoStr, goStrLtb a b = false → goStrLtb b a = false → a = b := by
  induction a with
  | nil =>
    intro b hab _
    cases b with
    | nil => rfl
    | cons hb tb => simp [goStrLtb] at hab
  | cons ha ta ih =>
    intro b hab hba
    cases b with
    | nil => simp [goStrLtb] at hba
    | cons hb tb =>
      simp only [goStrLtb] at hab hba
      by_cases h1 : ha < hb
      · simp [h1] at hab
      · by_cases h2 : hb < ha
        · simp [h1, h2] at hba
        · have : ha = hb := by omega
          subst this
          simp only [lt_irrefl, if_false] at hab hba
          rw [ih tb (by simpa using hab) (by simpa using hba)]

/-- Witness for C4 at the raw values `t = -25` and `c = 46`: `-25 * 0.1`
is the claim's example `-2.5`. -/
theorem C4_value_scaling_witness :
    (-32768 ≤ (-25 : Temperature)) ∧ ((-25 : Temperature) < 32768) ∧ ((46 : Conductivity) < 65536) ∧
    (Temperature.Value (-25) = ((-25 : Int) : ℚ) * 0.1 ∧
      Conductivity.Value 46 = ((46 : Nat) : ℚ) * 0.0001) ∧
    Temperature.Value (-25) = -2.5 := by
  refine ⟨by norm_num, by norm_num, by norm_num,
    C4_value_scaling (-25) (by norm_num) (by norm_num) 46 (by norm_num), ?_⟩
  show ((-25 : Int) : ℚ) / 10 = -2.5
  norm_num

/-! ## miflora discovery session (src/unnamed/part_003) -/

/-- `miflora.Sensor`'s identity part: radio address and resolved display
name (`advertisement.Addr().String()` and `name`). -/
structure Sensor where
  addr : GoStr
  name : GoStr
deriving DecidableEq, Repr

/-- `type SensorSlice []*Sensor`. -/
abbrev SensorSlice := List Sensor

/-- The loop body of Go's `sort.Search`: maintain `[i, j)` with the
invariant `f` false before `i` and true from `j` on, halving each step.
The fuel argument only bounds the number of iterations; since `j - i`
strictly shrinks every step, any fuel `≥ j - i` gives the loop's exact
behaviour. -/
def sortSearchAux (f : Nat → Bool) : Nat → Nat → Nat → Nat
  | 0, i, _ => i
  | fuel + 1, i, j =>
    if i < j then
      if f ((i + j) / 2) then sortSearchAux f fuel i ((i + j) / 2)
      else sortSearchAux f fuel (((i + j) / 2) + 1) j
    else i

/-- `sort.Search(n, f)`: smallest index in `[0, n]` at which `f` becomes
true, for monotone `f`. -/
def sortSearch (n : Nat) (f : Nat → Bool) : Nat := sortSearchAux f n 0 n

/-- `SensorSlice.insertSorted`: binary-search by address string; replace in
place when the address already exists (`s[i] = e`), otherwise shift the
tail right and insert at the located position. Go's `v(s[i]) >= v(e)` is
`!goStrLtb s[i].addr e.addr`. -/
def SensorSlice.insertSorted (s : SensorSlice) (e : Sensor) : SensorSlice × Bool :=
  if s.length = 0 then ([e], false)
  else
    let i := sortSearch s.length (fun k => !goStrLtb (s.getD k e).addr e.addr)
    if i < s.length ∧ (s.getD i e).addr = e.addr then (s.set i e, true)
    else (s.insertIdx i e, false)

lemma sortSearchAux_spec (f : Nat → Bool) :
    ∀ (fuel i j : Nat), i ≤ j → j - i ≤ fuel →
    (∀ a b, i ≤ a → a ≤ b → b < j → f a = true → f b = true) →
    i ≤ sortSearchAux f fuel i j ∧ sortSearchAux f fuel i j ≤ j ∧
    (∀ k, i ≤ k → k < sortSearchAux f fuel i j → f k = false) ∧
    (∀ k, sortSearchAux f fuel i j ≤ k → k < j → f k = true) := by
  intro fuel
  induction fuel with
  | zero =>
    intro i j hij hfuel _
    have hji : i = j := by omega
    subst hji
    simp only [sortSearchAux]
    exact ⟨le_refl i, le_refl i, fun k h1 h2 => absurd h2 (by omega),
      fun k h1 h2 => absurd h2 (by omega)⟩
  | succ fuel ih =>
    intro i j hij hfuel hmono
    simp only [sortSearchAux]
    by_cases hlt : i < j
    · simp only [hlt, if_true]
      have hhi : i ≤ (i + j) / 2 := by omega
      have hhj : (i + j) / 2 < j := by omega
      cases hf : f ((i + j) / 2) with
      | true =>
        simp only [if_true]
        obtain ⟨l1, l2, l3, l4⟩ :=
          ih i ((i + j) / 2) hhi (by omega)
            (fun a b h1 h2 h3 h4 => hmono a b h1 h2 (by omega) h4)
        refine ⟨l1, by omega, l3, ?_⟩
        intro k hk1 hk2
        by_cases hkh : k < (i + j) / 2
        · exact l4 k hk1 hkh
        · exact hmono ((i + j) / 2) k hhi (by omega) hk2 hf
      | false =>
        simp only [Bool.false_eq_true, if_false]
        obtain ⟨l1, l2, l3, l4⟩ :=
          ih ((i + j) / 2 + 1) j (by omega) (by omega)
            (fun a b h1 h2 h3 h4 => hmono a b (by omega) h2 h3 h4)
        refine ⟨by omega, l2, ?_, l4⟩
        intro k hk1 hk2
        by_cases hkh : (i + j) / 2 + 1 ≤ k
        · exact l3 k hkh hk2
        · cases hfk : f k with
          | false => rfl
          | true =>
            exact absurd (hmono k ((i + j) / 2) hk1 (by omega) hhj hfk) (by simp [hf])
    · simp only [hlt, if_false]
      refine ⟨le_refl i, by omega, fun k h1 h2 => absurd h2 (by omega),
        fun k h1 h2 => absurd h1 (by omega)⟩

/-- Strict address-sortedness of a sensor slice (Go string order on the
address, which is the `insertSorted` invariant). -/
def addrSorted (s : SensorSlice) : Prop :=
  List.Pairwise (fun a b => goStrLtb a.addr b.addr = true) s

lemma sortSearch_spec (n : Nat) (f : Nat → Bool)
    (hmono : ∀ a b, 0 ≤ a → a ≤ b → b < n → f a = true → f b = true) :
    sortSearch n f ≤ n ∧
    (∀ k, k < sortSearch n f → f k = false) ∧
    (∀ k, sortSearch n f ≤ k → k < n → f k = true) := by
  obtain ⟨h1, h2, h3, h4⟩ :=
    sortSearchAux_spec f n 0 n (Nat.zero_le n) (by omega) hmono
  exact ⟨h2, fun k hk => h3 k (Nat.zero_le k) hk, h4⟩

lemma addrSorted_getElem (s : SensorSlice) (hs : addrSorted s) :
    ∀ a b (ha : a < s.length) (hb : b < s.length), a < b →
      goStrLtb s[a].addr s[b].addr = true := by
  rw [addrSorted, List.pairwise_iff_getElem] at hs
  exact fun a b ha hb hab => hs a b ha hb hab

lemma insert_locate_mono (s : SensorSlice) (e : Sensor) (hs : addrSorted s) :
    ∀ a b, 0 ≤ a → a ≤ b → b < s.length →
      (!goStrLtb (s.getD a e).addr e.addr) = true →
      (!goStrLtb (s.getD b e).addr e.addr) = true := by
  intro a b _ hab hb hfa
  have ha : a < s.length := lt_of_le_of_lt hab hb
  rw [List.getD_eq_getElem s e ha, Bool.not_eq_true'] at hfa
  rw [List.getD_eq_getElem s e hb, Bool.not_eq_true']
  by_cases heq : a = b
  · subst heq
    exact hfa
  · cases hbe : goStrLtb s[b].addr e.addr with
    | false => rfl
    | true =>
      have hsab := addrSorted_getElem s hs a b ha hb (by omega)
      rw [goStrLtb_trans s[a].addr s[b].addr e.addr hsab hbe] at hfa
      cases hfa

lemma insertSorted_present (s : SensorSlice) (e : Sensor) (hs : addrSorted s) (k : Nat)
    (hk : k < s.length) (hke : s[k].addr = e.addr) :
    SensorSlice.insertSorted s e = (s.set k e, true) := by
  have hlen : ¬s.length = 0 := by omega
  obtain ⟨hrn, hrlow, hrhigh⟩ :=
    sortSearch_spec s.length (fun k => !goStrLtb (s.getD k e).addr e.addr)
      (insert_locate_mono s e hs)
  have hfk : (!goStrLtb (s.getD k e).addr e.addr) = true := by
    rw [List.getD_eq_getElem s e hk, hke, goStrLtb_self]
    rfl
  have hkr : sortSearch s.length (fun k => !goStrLtb (s.getD k e).addr e.addr) ≤ k := by
    by_contra hcon
    rw [hrlow k (by omega)] at hfk
    cases hfk
  have hreq : sortSearch s.length (fun k => !goStrLtb (s.getD k e).addr e.addr) = k := by
    by_contra hne
    have hrk : sortSearch s.length (fun k => !goStrLtb (s.getD k e).addr e.addr) < k := by
      omega
    have hfr := hrhigh _ (le_refl _) (by omega)
    rw [List.getD_eq_getElem s e (by omega), Bool.not_eq_true'] at hfr
    have hsrk := addrSorted_getElem s hs _ k (by omega) hk hrk
    rw [hke] at hsrk
    rw [hsrk] at hfr
    cases hfr
  rw [SensorSlice.insertSorted, if_neg hlen]
  dsimp only
  rw [hreq, if_pos ⟨hk, by rw [List.getD_eq_getElem s e hk]; exact hke⟩]

lemma insertIdx_addrSorted (s : SensorSlice) (e : Sensor) (hs : addrSorted s)
    (r : Nat) (hrn : r ≤ s.length)
    (hlow : ∀ m (hm : m < s.length), m < r → goStrLtb s[m].addr e.addr = true)
    (hhigh : ∀ m (hm : m < s.length), r ≤ m → goStrLtb e.addr s[m].addr = true) :
    addrSorted (s.insertIdx r e) := by
  have hulen : (s.insertIdx r e).length = s.length + 1 := List.length_insertIdx r s hrn
  rw [addrSorted, List.pairwise_iff_getElem]
  intro i j hi hj hij
  rw [← List.getD_eq_getElem (s.insertIdx r e) e hi, ← List.getD_eq_getElem (s.insertIdx r e) e hj]
  rw [hulen] at hi hj
  have hu_lt : ∀ m, m < r → (s.insertIdx r e).getD m e = s.getD m e := by
    intro m hm
    have hm' : m < s.length := by omega
    rw [List.getD_eq_getElem _ e (by omega), List.getD_eq_getElem _ e hm',
      List.getElem_insertIdx_of_lt s e r m hm hm']
  have hu_self : (s.insertIdx r e).getD r e = e := by
    rw [List.getD_eq_getElem _ e (by omega), List.getElem_insertIdx_self s e r hrn]
  have hu_gt : ∀ k, r + k < s.length →
      (s.insertIdx r e).getD (r + k + 1) e = s.getD (r + k) e := by
    intro k hk
    rw [List.getD_eq_getElem _ e (by omega), List.getD_eq_getElem _ e hk,
      List.getElem_insertIdx_add_succ s e r k hk]
  rcases Nat.lt_trichotomy i r with hir | hir | hir
  · have hi' : i < s.length := by omega
    rw [hu_lt i hir, List.getD_eq_getElem s e hi']
    rcases Nat.lt_trichotomy j r with hjr | hjr | hjr
    · have hj' : j < s.length := by omega
      rw [hu_lt j hjr, List.getD_eq_getElem s e hj']
      exact addrSorted_getElem s hs i j hi' hj' hij
    · rw [hjr, hu_self]
      exact hlow i hi' hir
    · obtain ⟨k, rfl⟩ : ∃ k, j = r + k + 1 := ⟨j - r - 1, by omega⟩
      have hk : r + k < s.length := by omega
      rw [hu_gt k hk, List.getD_eq_getElem s e hk]
      exact addrSorted_getElem s hs i (r + k) hi' hk (by omega)
  · rw [hir, hu_self]
    obtain ⟨k, rfl⟩ : ∃ k, j = r + k + 1 := ⟨j - r - 1, by omega⟩
    have hk : r + k < s.length := by omega
    rw [hu_gt k hk, List.getD_eq_getElem s e hk]
    exact hhigh (r + k) hk (by omega)
  · obtain ⟨k, rfl⟩ : ∃ k, i = r + k + 1 := ⟨i - r - 1, by omega⟩
    obtain ⟨k2, rfl⟩ : ∃ k2, j = r + k2 + 1 := ⟨j - r - 1, by omega⟩
    have hk : r + k < s.length := by omega
    have hk2 : r + k2 < s.length := by omega
    rw [hu_gt k hk, hu_gt k2 hk2, List.getD_eq_getElem s e hk, List.getD_eq_getElem s e hk2]
    exact addrSorted_getElem s hs (r + k) (r + k2) hk hk2 (by omega)

lemma insertSorted_absent (s : SensorSlice) (e : Sensor) (hs : addrSorted s)
    (habs : ∀ k (hk : k < s.length), s[k].addr ≠ e.addr) :
    (SensorSlice.insertSorted s e).2 = false ∧
    (SensorSlice.insertSorted s e).1.length = s.length + 1 ∧
    addrSorted (SensorSlice.insertSorted s e).1 := by
  by_cases hlen : s.length = 0
  · have hnil : s = [] := List.length_eq_zero.mp hlen
    subst hnil
    refine ⟨rfl, rfl, ?_⟩
    rw [show (SensorSlice.insertSorted [] e).1 = [e] from rfl, addrSorted]
    exact List.pairwise_singleton _ e
  · obtain ⟨hrn, hrlow, hrhigh⟩ :=
      sortSearch_spec s.length (fun k => !goStrLtb (s.getD k e).addr e.addr)
        (insert_locate_mono s e hs)
    have hlow : ∀ m (hm : m < s.length),
        m < sortSearch s.length (fun k => !goStrLtb (s.getD k e).addr e.addr) →
        goStrLtb s[m].addr e.addr = true := by
      intro m hm hmr
      have := hrlow m hmr
      rw [List.getD_eq_getElem s e hm, Bool.not_eq_false'] at this
      exact this
    have hhigh : ∀ m (hm : m < s.length),
        sortSearch s.length (fun k => !goStrLtb (s.getD k e).addr e.addr) ≤ m →
        goStrLtb e.addr s[m].addr = true := by
      intro m hm hmr
      have := hrhigh m hmr hm
      rw [List.getD_eq_getElem s e hm, Bool.not_eq_true'] at this
      cases hem : goStrLtb e.addr s[m].addr with
      | true => rfl
      | false => exact absurd (goStrLtb_eq_of_not _ _ this hem) (habs m hm)
    rw [SensorSlice.insertSorted, if_neg hlen]
    dsimp only
    rw [if_neg ?hcond]
    case hcond =>
      rintro ⟨hclt, hceq⟩
      rw [List.getD_eq_getElem s e hclt] at hceq
      exact habs _ hclt hceq
    refine ⟨rfl, List.length_insertIdx _ s hrn, ?_⟩
    exact insertIdx_addrSorted s e hs _ hrn hlow hhigh

/-- Example sensor with address `"b"` (inserted first in the spec's
example). -/
def sensorB : Sensor := ⟨goStr "b", goStr "nameB"⟩

/-- Example sensor with address `"a"`. -/
def sensorA : Sensor := ⟨goStr "a", goStr "nameA"⟩

/-- Example sensor with address `"c"`. -/
def sensorC : Sensor := ⟨goStr "c", goStr "nameC"⟩

/-- C5: `insertSorted` keyed by address is idempotent on address and
order-preserving: on an address-sorted slice, inserting a sensor whose
address is already present at position `k` replaces exactly that entry
(same length, all other positions unchanged, `existed = true`); inserting a
fresh address reports `existed = false`, grows the slice by one and keeps
it address-sorted; and inserting addresses `b`, `a`, `c` into an empty
slice yields the order `[a, b, c]`. -/
theorem C5_insertSorted (s : SensorSlice) (e : Sensor) (hs : addrSorted s) :
    ((∃ k, ∃ hk : k < s.length, s[k].addr = e.addr) →
      ∃ k, ∃ hk : k < s.length, s[k].addr = e.addr ∧
        SensorSlice.insertSorted s e = (s.set k e, true) ∧
        (SensorSlice.insertSorted s e).1.length = s.length ∧
        ∀ m, m ≠ k → (SensorSlice.insertSorted s e).1.getD m e = s.getD m e) ∧
    ((∀ k (hk : k < s.length), s[k].addr ≠ e.addr) →
      (SensorSlice.insertSorted s e).2 = false ∧
      (SensorSlice.insertSorted s e).1.length = s.length + 1 ∧
      addrSorted (SensorSlice.insertSorted s e).1) ∧
    (SensorSlice.insertSorted
      (SensorSlice.insertSorted (SensorSlice.insertSorted [] sensorB).1 sensorA).1
      sensorC).1 = [sensorA, sensorB, sensorC] := by
  refine ⟨?_, ?_, by decide⟩
  · rintro ⟨k, hk, hke⟩
    have heq := insertSorted_present s e hs k hk hke
    refine ⟨k, hk, hke, heq, ?_, ?_⟩
    · rw [heq]
      exact List.length_set s k e
    · intro m hm
      rw [heq]
      by_cases hmlen : m < s.length
      · rw [List.getD_eq_getElem _ e (by rw [List.length_set]; exact hmlen),
          List.getD_eq_getElem s e hmlen]
        exact List.getElem_set_ne (show k ≠ m from fun h => hm h.symm) _
      · rw [List.getD_eq_default _ e (by rw [List.length_set]; omega),
          List.getD_eq_default s e (by omega)]
  · intro habs
    exact insertSorted_absent s e hs habs

/-- Witness for C5 at the sorted slice `[a, c]` and fresh address `b`. -/
theorem C5_insertSorted_witness :
    addrSorted [sensorA, sensorC] ∧
    ((SensorSlice.insertSorted [sensorA, sensorC] sensorB).2 = false ∧
     (SensorSlice.insertSorted [sensorA, sensorC] sensorB).1.length = 3 ∧
     addrSorted (SensorSlice.insertSorted [sensorA, sensorC] sensorB).1) :=
  ⟨by unfold addrSorted; decide,
    (C5_insertSorted [sensorA, sensorC] sensorB (by unfold addrSorted; decide)).2.1 (by decide)⟩

/-! ## Advertisement classifier (`isMiraFloraDevice`, `isDeclaredSensor`,
`doScanReal` handler, `newSensor` name resolution) -/

/-- `deviceName = "Flower care"`. -/
def deviceName : GoStr := goStr "Flower care"

/-- The source's vendor-OUI constant `"C4:7C:8D"` (the `addressPrefix`
constant of part_003). -/
def addrOUI : GoStr := goStr "C4:7C:8D"

/-- ASCII byte uppercasing (`strings.ToUpper` on the ASCII addresses the
program handles). -/
def byteToUpper (c : Nat) : Nat := if 97 ≤ c ∧ c ≤ 122 then c - 32 else c

/-- `strings.ToUpper` over a byte string (ASCII). -/
def goToUpper (s : GoStr) : GoStr := s.map byteToUpper

/-- `strings.HasPrefix(s, p)`. -/
def goStartsWith (s p : GoStr) : Bool := List.isPrefixOf p s

/-- `strings.EqualFold` restricted to the ASCII addresses the program
handles: case-insensitive equality. -/
def goEqFold (a b : GoStr) : Bool := goToUpper a == goToUpper b

/-- `strings.SplitN(s, "=", 2)`: split at the first `=` (byte 61); a
string with no `=` stays in one piece. -/
def splitN2eq (s : GoStr) : List GoStr :=
  if (s.dropWhile (fun c => c != 61)).isEmpty then [s]
  else [s.takeWhile (fun c => c != 61), (s.dropWhile (fun c => c != 61)).drop 1]

/-- `isDeclaredSensor`: scan the `name=address` override entries in order,
skipping malformed ones; the first case-insensitive address match returns
`(true, name)`. -/
def isDeclaredSensor : List GoStr → GoStr → Bool × GoStr
  | [], _ => (false, [])
  | o :: rest, addr =>
    match splitN2eq o with
    | [n, a] => if goEqFold addr a then (true, n) else isDeclaredSensor rest addr
    | _ => isDeclaredSensor rest addr

/-- The part of `ble.Advertisement` the classifier consumes. -/
structure Advertisement where
  connectable : Bool
  localName : GoStr
  addr : GoStr
deriving DecidableEq, Repr

/-- `isMiraFloraDevice` (source spelling): connectable, and known name or
known vendor OUI on the uppercased address. -/
def isMiraFloraDevice (a : Advertisement) : Bool :=
  if !a.connectable then false
  else if a.localName == deviceName then true
  else if goStartsWith (goToUpper a.addr) addrOUI then true
  else false

/-- The advertisement handler of `doScanReal`: reject non-classified
frames; when at least one override entry exists, also reject addresses not
declared there. -/
def handlerAccepts (overrides : List GoStr) (a : Advertisement) : Bool :=
  if !isMiraFloraDevice a then false
  else if 0 < overrides.length ∧ (isDeclaredSensor overrides a.addr).1 = false then false
  else true

/-- `newSensor`'s name resolution: the broadcast name, unless an override
entry declares this address. -/
def newSensorName (overrides : List GoStr) (a : Advertisement) : GoStr :=
  if (isDeclaredSensor overrides a.addr).1 then (isDeclaredSensor overrides a.addr).2
  else a.localName

/-- Spec-side reading of one override entry: `name=addr'` where `addr'`
equals the address case-insensitively. -/
def overrideEntryMatches (o : GoStr) (addr : GoStr) : Bool :=
  match splitN2eq o with
  | [_, a] => goEqFold addr a
  | _ => false

lemma isDeclaredSensor_fst_iff (overrides : List GoStr) (addr : GoStr) :
    (isDeclaredSensor overrides addr).1 = true ↔
      ∃ o ∈ overrides, overrideEntryMatches o addr = true := by
  induction overrides with
  | nil => simp [isDeclaredSensor]
  | cons o rest ih =>
    rw [isDeclaredSensor]
    constructor
    · intro hfst
      revert hfst
      split
      case h_1 n a heq =>
        by_cases hfold : goEqFold addr a = true
        · intro _
          exact ⟨o, List.mem_cons_self o rest, by rw [overrideEntryMatches, heq]; exact hfold⟩
        · rw [if_neg (by simpa using hfold)]
          intro hfst
          obtain ⟨o2, ho2, hmatch⟩ := ih.mp hfst
          exact ⟨o2, List.mem_cons_of_mem o ho2, hmatch⟩
      case h_2 heq =>
        intro hfst
        obtain ⟨o2, ho2, hmatch⟩ := ih.mp hfst
        exact ⟨o2, List.mem_cons_of_mem o ho2, hmatch⟩
    · rintro ⟨o2, ho2, hmatch⟩
      rcases List.mem_cons.mp ho2 with rfl | ho2tail
      · rw [overrideEntryMatches] at hmatch
        revert hmatch
        split
        case h_1 n a heq => intro hmatch; rw [if_pos hmatch]
        case h_2 heq => intro hmatch; cases hmatch
      · have htail := ih.mpr ⟨o2, ho2tail, hmatch⟩
        split
        case h_1 n a heq =>
          by_cases hfold : goEqFold addr a = true
          · rw [if_pos hfold]
          · rw [if_neg (by simpa using hfold)]
            exact htail
        case h_2 heq => exact htail

lemma isMiraFloraDevice_iff (a : Advertisement) :
    isMiraFloraDevice a = true ↔
      (a.connectable = true ∧
        (a.localName = deviceName ∨ goStartsWith (goToUpper a.addr) addrOUI = true)) := by
  rw [isMiraFloraDevice]
  cases hc : a.connectable
  · simp
  · by_cases hn : a.localName == deviceName
    · simp [hn, eq_of_beq hn]
    · have hne : a.localName ≠ deviceName := fun h => hn (by simp [h])
      by_cases hp : goStartsWith (goToUpper a.addr) addrOUI
      · simp [hn, hp]
      · simp [hn, hp, hne]

lemma handlerAccepts_iff (overrides : List GoStr) (a : Advertisement) :
    handlerAccepts overrides a = true ↔
      (isMiraFloraDevice a = true ∧
        (overrides ≠ [] → (isDeclaredSensor overrides a.addr).1 = true)) := by
  rw [handlerAccepts]
  by_cases hm : isMiraFloraDevice a = true
  · by_cases hlen : 0 < overrides.length
    · have hnnil : overrides ≠ [] := by
        intro h
        rw [h] at hlen
        simp at hlen
      cases hd : (isDeclaredSensor overrides a.addr).1
      · simp [hm, hlen, hd, hnnil]
      · simp [hm, hlen, hd]
    · have hnil : overrides = [] := by
        cases overrides with
        | nil => rfl
        | cons o rest => simp at hlen
      simp [hm, hlen, hnil]
  · have hm' : isMiraFloraDevice a = false := by
      revert hm
      cases isMiraFloraDevice a <;> simp
    simp [hm', hm]

/-- C6: a broadcast is accepted exactly when it is connectable, its name
equals `"Flower care"` or its address carries the `C4:7C:8D` OUI, and —
when the operator supplied a non-empty override list — its address appears
(case-insensitively) in a well-formed `name=address` entry of that list;
an accepted sensor with an override uses the override name, otherwise the
broadcast name. -/
theorem C6_classifier (overrides : List GoStr) (a : Advertisement) :
    (handlerAccepts overrides a = true ↔
      (a.connectable = true ∧
       (a.localName = deviceName ∨ goStartsWith (goToUpper a.addr) addrOUI = true) ∧
       (overrides ≠ [] → ∃ o ∈ overrides, overrideEntryMatches o a.addr = true))) ∧
    ((isDeclaredSensor overrides a.addr).1 = true →
      newSensorName overrides a = (isDeclaredSensor overrides a.addr).2) ∧
    ((isDeclaredSensor overrides a.addr).1 = false →
      newSensorName overrides a = a.localName) := by
  refine ⟨?_, ?_, ?_⟩
  · rw [handlerAccepts_iff, isMiraFloraDevice_iff]
    constructor
    · rintro ⟨⟨hc, hmatch⟩, hdecl⟩
      exact ⟨hc, hmatch, fun hne => (isDeclaredSensor_fst_iff overrides a.addr).mp (hdecl hne)⟩
    · rintro ⟨hc, hmatch, hdecl⟩
      exact ⟨⟨hc, hmatch⟩, fun hne => (isDeclaredSensor_fst_iff overrides a.addr).mpr (hdecl hne)⟩
  · intro hd
    rw [newSensorName, if_pos hd]
  · intro hd
    rw [newSensorName, if_neg (by simp [hd])]

/-- Witness for C6: a connectable broadcast named `"Flower care"` with a
lowercase address declared in the override list is accepted and takes the
override name `plant1`. -/
theorem C6_classifier_witness :
    handlerAccepts [goStr "plant1=C4:7C:8D:AA:BB:CC"]
      ⟨true, goStr "Flower care", goStr "c4:7c:8d:aa:bb:cc"⟩ = true ∧
    newSensorName [goStr "plant1=C4:7C:8D:AA:BB:CC"]
      ⟨true, goStr "Flower care", goStr "c4:7c:8d:aa:bb:cc"⟩ = goStr "plant1" := by
  constructor
  · exact (C6_classifier [goStr "plant1=C4:7C:8D:AA:BB:CC"]
      ⟨true, goStr "Flower care", goStr "c4:7c:8d:aa:bb:cc"⟩).1.mpr
      ⟨rfl, Or.inl rfl, fun _ => ⟨goStr "plant1=C4:7C:8D:AA:BB:CC", by decide, by decide⟩⟩
  · have h := (C6_classifier [goStr "plant1=C4:7C:8D:AA:BB:CC"]
      ⟨true, goStr "Flower care", goStr "c4:7c:8d:aa:bb:cc"⟩).2.1 (by decide)
    rw [h]
    decide

/-! ## History synchronizer (`MiFlora.HistoricValues`, src/unnamed/part_003
lines 182-277)

The radio conversation is abstracted by oracles: `read pos` tells whether
`c.HistoryMeasurement(pos)` succeeds, `emit pos` tells whether the result
send at `pos` completes (`false` = the governing context is cancelled while
the send is blocked). The sensor state the synchronizer mutates is its
`historyPointer` (`Option Nat`, a uint16 position). -/

/-- How one pass over one sensor ends: `ok` models every `return nil` path
(loop completed, read error skip, or the 50-entry batch cap); `cancelled
pos` models `return ctx.Err()` from the select around the result send at
position `pos`. -/
inductive PassOutcome where
  | ok : PassOutcome
  | cancelled : Nat → PassOutcome
deriving DecidableEq, Repr

/-- Result of one pass over one sensor: final `historyPointer`, the
positions emitted to the result channel in order, and how the pass ended. -/
structure PassResult where
  pointer : Option Nat
  emitted : List Nat
  outcome : PassOutcome
deriving DecidableEq, Repr

/-- The `for i := int32(historyLength); i >= 0; i--` loop of
`HistoricValues`: read the entry (a failed read logs and ends the pass as
success), emit the Result (a cancelled send returns `ctx.Err()` *before*
the pointer update), store `pos` in the sensor's pointer, and end the pass
once `historyLength - pos > 50`. At `pos = 0` the loop ends either way
with the same state, whether or not the cap fires. -/
def iterateHistory (read emit : Nat → Bool) (historyLength : Nat) :
    Nat → Option Nat → List Nat → PassResult
  | 0, ptr, acc =>
    if read 0 = false then ⟨ptr, acc, .ok⟩
    else if emit 0 = false then ⟨ptr, acc, .cancelled 0⟩
    else ⟨some 0, acc ++ [0], .ok⟩
  | i + 1, ptr, acc =>
    if read (i + 1) = false then ⟨ptr, acc, .ok⟩
    else if emit (i + 1) = false then ⟨ptr, acc, .cancelled (i + 1)⟩
    else if historyLength - (i + 1) > 50 then ⟨some (i + 1), acc ++ [i + 1], .ok⟩
    else iterateHistory read emit historyLength i (some (i + 1)) (acc ++ [i + 1])

/-- The `// restore pointer` step: a prior cursor overrides the freshly
reported length via `historyLength = *s.historyPointer - 1` (uint16
subtraction, hence the `% 65536`). -/
def effectiveStart (ptr : Option Nat) (reported : Nat) : Nat :=
  match ptr with
  | some p => (p + 65535) % 65536
  | none => reported

/-- One pass body over one sensor after a successful connect/time/length
read: restore the cursor if one exists and iterate backwards from the
effective starting position. `reportedRaw % 65536` is the 2-byte
little-endian length `HistoryLength()` decodes. -/
def sensorPass (read emit : Nat → Bool) (reportedRaw : Nat) (ptr : Option Nat) : PassResult :=
  iterateHistory read emit (effectiveStart ptr (reportedRaw % 65536))
    (effectiveStart ptr (reportedRaw % 65536)) ptr []

/-- `Sensor.finished()`: a nil pointer is not finished; otherwise finished
exactly when the stored cursor is 0. -/
def sensorFinished (ptr : Option Nat) : Bool :=
  match ptr with
  | none => false
  | some p => p == 0

/-- C7: with a prior cursor `p` (a uint16, and `p ≥ 1` — see C10), the
backward iteration starts at `p - 1`, overriding the freshly read
device-reported length; with no prior cursor it starts at the reported
length. -/
theorem C7_resume_start (read emit : Nat → Bool) (reportedRaw p : Nat)
    (hp1 : 1 ≤ p) (hp2 : p < 65536) :
    effectiveStart (some p) (reportedRaw % 65536) = p - 1 ∧
    sensorPass read emit reportedRaw (some p) =
      iterateHistory read emit (p - 1) (p - 1) (some p) [] ∧
    effectiveStart none (reportedRaw % 65536) = reportedRaw % 65536 ∧
    sensorPass read emit reportedRaw none =
      iterateHistory read emit (reportedRaw % 65536) (reportedRaw % 65536) none [] := by
  have hes : effectiveStart (some p) (reportedRaw % 65536) = p - 1 := by
    rw [effectiveStart]
    omega
  exact ⟨hes, by rw [sensorPass, hes], rfl, rfl⟩

/-- Witness for C7 at cursor `p = 5` and reported length `77`. -/
theorem C7_resume_start_witness :
    1 ≤ 5 ∧ (5 : Nat) < 65536 ∧
    (effectiveStart (some 5) (77 % 65536) = 4 ∧
      sensorPass (fun _ => true) (fun _ => true) 77 (some 5) =
        iterateHistory (fun _ => true) (fun _ => true) 4 4 (some 5) [] ∧
      effectiveStart none (77 % 65536) = 77 % 65536 ∧
      sensorPass (fun _ => true) (fun _ => true) 77 none =
        iterateHistory (fun _ => true) (fun _ => true) (77 % 65536) (77 % 65536) none []) :=
  ⟨by decide, by decide,
    C7_resume_start (fun _ => true) (fun _ => true) 77 5 (by decide) (by decide)⟩

lemma iterateHistory_length_le (read emit : Nat → Bool) (L : Nat) :
    ∀ i (ptr : Option Nat) (acc : List Nat), i ≤ L → L - i ≤ 51 →
      (iterateHistory read emit L i ptr acc).emitted.length ≤ acc.length + (52 - (L - i)) := by
  intro i
  induction i with
  | zero =>
    intro ptr acc hle hcap
    rw [iterateHistory]
    by_cases hr : read 0 = false
    · rw [if_pos hr]
      exact Nat.le_add_right _ _
    · rw [if_neg hr]
      by_cases he : emit 0 = false
      · rw [if_pos he]
        exact Nat.le_add_right _ _
      · rw [if_neg he]
        simp only [List.length_append, List.length_cons, List.length_nil]
        omega
  | succ i ih =>
    intro ptr acc hle hcap
    rw [iterateHistory]
    by_cases hr : read (i + 1) = false
    · rw [if_pos hr]
      exact Nat.le_add_right _ _
    · rw [if_neg hr]
      by_cases he : emit (i + 1) = false
      · rw [if_pos he]
        exact Nat.le_add_right _ _
      · rw [if_neg he]
        by_cases hc : L - (i + 1) > 50
        · rw [if_pos hc]
          simp only [List.length_append, List.length_cons, List.length_nil]
          omega
        · rw [if_neg hc]
          have hrec := ih (some (i + 1)) (acc ++ [i + 1]) (by omega) (by omega)
          simp only [List.length_append, List.length_cons, List.length_nil] at hrec
          omega

/-- C8 counterexample: a pass over a sensor with no prior cursor and a
device-reported length of 60 (every read and emit succeeding) emits 52
Results — positions 60 down to 9, the cap `historyLength - pos > 50`
firing only after position 9 — refuting the claimed bound of 51. -/
theorem C8_counterexample :
    ¬(sensorPass (fun _ => true) (fun _ => true) 60 none).emitted.length ≤ 51 := by
  decide

/-- C8 (amended): the pass stops once `historyLength - pos > 50`, i.e. as
soon as more than 51 entries have been synchronized in the pass; a pass
therefore never emits more than 52 Results for one sensor. -/
theorem C8_batch_cap (read emit : Nat → Bool) (reportedRaw : Nat) (ptr : Option Nat) :
    (sensorPass read emit reportedRaw ptr).emitted.length ≤ 52 := by
  rw [sensorPass]
  have h := iterateHistory_length_le read emit (effectiveStart ptr (reportedRaw % 65536))
    (effectiveStart ptr (reportedRaw % 65536)) ptr [] (le_refl _) (by omega)
  simpa using h

lemma iterateHistory_pointer_inv (read emit : Nat → Bool) (L : Nat) (ptr0 : Option Nat) :
    ∀ i (ptrcur : Option Nat) (acc : List Nat),
      ptrcur = (match acc.getLast? with | some q => some q | none => ptr0) →
      (iterateHistory read emit L i ptrcur acc).pointer =
        (match (iterateHistory read emit L i ptrcur acc).emitted.getLast? with
          | some q => some q
          | none => ptr0) := by
  intro i
  induction i with
  | zero =>
    intro ptr acc hinv
    rw [iterateHistory]
    by_cases hr : read 0 = false
    · rw [if_pos hr]
      exact hinv
    · rw [if_neg hr]
      by_cases he : emit 0 = false
      · rw [if_pos he]
        exact hinv
      · rw [if_neg he]
        simp [List.getLast?_concat]
  | succ i ih =>
    intro ptr acc hinv
    rw [iterateHistory]
    by_cases hr : read (i + 1) = false
    · rw [if_pos hr]
      exact hinv
    · rw [if_neg hr]
      by_cases he : emit (i + 1) = false
      · rw [if_pos he]
        exact hinv
      · rw [if_neg he]
        by_cases hc : L - (i + 1) > 50
        · rw [if_pos hc]
          simp [List.getLast?_concat]
        · rw [if_neg hc]
          exact ih (some (i + 1)) (acc ++ [i + 1]) (by simp [List.getLast?_concat])

lemma iterateHistory_cancelled (read emit : Nat → Bool) (L : Nat) :
    ∀ i (ptr : Option Nat) (acc : List Nat) (p : Nat),
      (iterateHistory read emit L i ptr acc).outcome = .cancelled p →
      p ≤ i ∧ ∀ q ∈ (iterateHistory read emit L i ptr acc).emitted, q ∈ acc ∨ p < q := by
  intro i
  induction i with
  | zero =>
    intro ptr acc p hout
    rw [iterateHistory] at hout ⊢
    by_cases hr : read 0 = false
    · rw [if_pos hr] at hout
      cases hout
    · rw [if_neg hr] at hout ⊢
      by_cases he : emit 0 = false
      · rw [if_pos he] at hout ⊢
        have hp : p = 0 := by
          have := hout
          simp only [PassOutcome.cancelled.injEq] at this
          omega
        exact ⟨by omega, fun q hq => Or.inl hq⟩
      · rw [if_neg he] at hout
        cases hout
  | succ i ih =>
    intro ptr acc p hout
    rw [iterateHistory] at hout ⊢
    by_cases hr : read (i + 1) = false
    · rw [if_pos hr] at hout
      cases hout
    · rw [if_neg hr] at hout ⊢
      by_cases he : emit (i + 1) = false
      · rw [if_pos he] at hout ⊢
        have hp : p = i + 1 := by
          simp only [PassOutcome.cancelled.injEq] at hout
          omega
        exact ⟨by omega, fun q hq => Or.inl hq⟩
      · rw [if_neg he] at hout ⊢
        by_cases hc : L - (i + 1) > 50
        · rw [if_pos hc] at hout
          cases hout
        · rw [if_neg hc] at hout ⊢
          obtain ⟨hpi, hall⟩ := ih (some (i + 1)) (acc ++ [i + 1]) p hout
          refine ⟨by omega, fun q hq => ?_⟩
          rcases hall q hq with hmem | hlt
          · rcases List.mem_append.mp hmem with hacc | hsing
            · exact Or.inl hacc
            · right
              rw [List.mem_singleton] at hsing
              omega
          · exact Or.inr hlt

/-- C9: if the governing context is cancelled while the Result emission at
position `p` is blocked on the sink channel, the pass returns at once with
the cursor still holding its pre-emission value — the last position
emitted earlier in the pass, or the entry cursor if none — and in
particular the cursor is never set to `p` (`p` is not among the emitted
positions). -/
theorem C9_cancelled_emit (read emit : Nat → Bool) (reportedRaw : Nat) (ptr : Option Nat)
    (p : Nat) (hc : (sensorPass read emit reportedRaw ptr).outcome = .cancelled p) :
    (sensorPass read emit reportedRaw ptr).pointer =
      (match (sensorPass read emit reportedRaw ptr).emitted.getLast? with
        | some q => some q
        | none => ptr) ∧
    p ∉ (sensorPass read emit reportedRaw ptr).emitted := by
  constructor
  · exact iterateHistory_pointer_inv read emit _ ptr _ ptr [] rfl
  · intro hmem
    obtain ⟨hpi, hall⟩ := iterateHistory_cancelled read emit _ _ ptr [] p hc
    rcases hall p hmem with habs | hlt
    · simp at habs
    · omega

/-- Witness for C9: reported length 5, emission cancelled at position 3:
positions 5 and 4 were emitted, the cursor stays at 4, and 3 is not
emitted. -/
theorem C9_cancelled_emit_witness :
    (sensorPass (fun _ => true) (fun q => q != 3) 5 none).outcome = .cancelled 3 ∧
    ((sensorPass (fun _ => true) (fun q => q != 3) 5 none).pointer =
      (match (sensorPass (fun _ => true) (fun q => q != 3) 5 none).emitted.getLast? with
        | some q => some q
        | none => none) ∧
     3 ∉ (sensorPass (fun _ => true) (fun q => q != 3) 5 none).emitted) :=
  ⟨by decide, C9_cancelled_emit (fun _ => true) (fun q => q != 3) 5 none 3 (by decide)⟩

/-- The radio-conversation oracle for one pass over one sensor: whether
connect (`s.client`), `DeviceTimeDiff` and `HistoryLength` succeed, the
raw reported length, and per-position read/emit outcomes. -/
structure PassOracle where
  connectOk : Bool
  timeOk : Bool
  lengthOk : Bool
  reported : Nat
  read : Nat → Bool
  emit : Nat → Bool

/-- The per-sensor closure of `HistoricValues`: connect, time-diff or
length-read failures log and skip the sensor (pointer untouched, no
error); otherwise the iteration runs. The Bool is true exactly when the
closure returned a non-nil error — only possible for `ctx.Err()` from a
cancelled emit — which makes `HistoricValues` return immediately. -/
def passPointer (o : PassOracle) (ptr : Option Nat) : Option Nat × Bool :=
  if o.connectOk = false then (ptr, false)
  else if o.timeOk = false then (ptr, false)
  else if o.lengthOk = false then (ptr, false)
  else
    match sensorPass o.read o.emit o.reported ptr with
    | ⟨ptr2, _, .cancelled _⟩ => (ptr2, true)
    | ⟨ptr2, _, .ok⟩ => (ptr2, false)

/-- One `for _, s := range sensors` round of `HistoricValues`: sensors are
processed left to right; a closure error aborts the run at once, leaving
the remaining sensors unprocessed. -/
def driverRound (o : Nat → PassOracle) : Nat → List (Option Nat) → List (Option Nat) × Bool
  | _, [] => ([], false)
  | idx, ptr :: rest =>
    match passPointer (o idx) ptr with
    | (ptr2, true) => (ptr2 :: rest, true)
    | (ptr2, false) =>
      match driverRound o (idx + 1) rest with
      | (rest2, aborted) => (ptr2 :: rest2, aborted)

/-- The outer repeat loop of `HistoricValues`, fuel-bounded (the Go loop
may spin forever against a sensor whose connect always fails): yields the
trace of round-entry pointer states. After a round only the sensors with
`!s.finished()` survive into the next round; an abort or an empty survivor
list ends the loop. -/
def driverTrace (oracle : Nat → Nat → PassOracle) :
    Nat → Nat → List (Option Nat) → List (List (Option Nat))
  | 0, _, sensors => [sensors]
  | fuel + 1, round, sensors =>
    sensors ::
      (match driverRound (oracle round) 0 sensors with
       | (_, true) => []
       | (processed, false) =>
         match processed.filter (fun ptr => !sensorFinished ptr) with
         | [] => []
         | next => driverTrace oracle fuel (round + 1) next)

lemma iterateHistory_pointer_range (read emit : Nat → Bool) (L : Nat) :
    ∀ i (ptr : Option Nat) (acc : List Nat),
      (iterateHistory read emit L i ptr acc).pointer = ptr ∨
        ∃ q, q ≤ i ∧ (iterateHistory read emit L i ptr acc).pointer = some q := by
  intro i
  induction i with
  | zero =>
    intro ptr acc
    rw [iterateHistory]
    by_cases hr : read 0 = false
    · rw [if_pos hr]
      exact Or.inl rfl
    · rw [if_neg hr]
      by_cases he : emit 0 = false
      · rw [if_pos he]
        exact Or.inl rfl
      · rw [if_neg he]
        exact Or.inr ⟨0, le_refl 0, rfl⟩
  | succ i ih =>
    intro ptr acc
    rw [iterateHistory]
    by_cases hr : read (i + 1) = false
    · rw [if_pos hr]
      exact Or.inl rfl
    · rw [if_neg hr]
      by_cases he : emit (i + 1) = false
      · rw [if_pos he]
        exact Or.inl rfl
      · rw [if_neg he]
        by_cases hc : L - (i + 1) > 50
        · rw [if_pos hc]
          exact Or.inr ⟨i + 1, le_refl _, rfl⟩
        · rw [if_neg hc]
          rcases ih (some (i + 1)) (acc ++ [i + 1]) with heq | ⟨q, hq, heq⟩
          · exact Or.inr ⟨i + 1, le_refl _, heq⟩
          · exact Or.inr ⟨q, by omega, heq⟩

lemma sensorPass_pointer_range (read emit : Nat → Bool) (raw : Nat) (ptr : Option Nat) :
    (sensorPass read emit raw ptr).pointer = ptr ∨
      ∃ q, q < 65536 ∧ (sensorPass read emit raw ptr).pointer = some q := by
  have hlt : effectiveStart ptr (raw % 65536) < 65536 := by
    rcases ptr with _ | p
    · rw [effectiveStart]
      omega
    · rw [effectiveStart]
      omega
  rcases iterateHistory_pointer_range read emit (effectiveStart ptr (raw % 65536))
      (effectiveStart ptr (raw % 65536)) ptr [] with heq | ⟨q, hq, heq⟩
  · exact Or.inl heq
  · exact Or.inr ⟨q, by omega, heq⟩

lemma passPointer_range (o : PassOracle) (ptr : Option Nat)
    (h16 : ∀ p, ptr = some p → p < 65536) :
    ∀ p, (passPointer o ptr).1 = some p → p < 65536 := by
  intro p hp
  rw [passPointer] at hp
  by_cases hc : o.connectOk = false
  · rw [if_pos hc] at hp
    exact h16 p hp
  · rw [if_neg hc] at hp
    by_cases ht : o.timeOk = false
    · rw [if_pos ht] at hp
      exact h16 p hp
    · rw [if_neg ht] at hp
      by_cases hl : o.lengthOk = false
      · rw [if_pos hl] at hp
        exact h16 p hp
      · rw [if_neg hl] at hp
        have hrange := sensorPass_pointer_range o.read o.emit o.reported ptr
        rcases hres : sensorPass o.read o.emit o.reported ptr with ⟨p2, em, oc⟩
        rw [hres] at hp hrange
        have hp2 : p2 = some p := by
          cases oc
          · exact hp
          · exact hp
        rcases hrange with heq | ⟨q, hq, heq⟩
        · exact h16 p (by rw [← heq]; exact hp2)
        · have : q = p := by
            rw [hp2] at heq
            exact (Option.some.injEq q p).mp heq.symm
          omega

lemma driverRound_range (o : Nat → PassOracle) :
    ∀ (sensors : List (Option Nat)) idx,
      (∀ ptr ∈ sensors, ∀ p, ptr = some p → p < 65536) →
      ∀ ptr ∈ (driverRound o idx sensors).1, ∀ p, ptr = some p → p < 65536 := by
  intro sensors
  induction sensors with
  | nil =>
    intro idx _ ptr hmem
    rw [driverRound] at hmem
    simp at hmem
  | cons head rest ih =>
    intro idx hall ptr hmem
    rw [driverRound] at hmem
    have hhead := hall head (List.mem_cons_self head rest)
    have hrest : ∀ ptr ∈ rest, ∀ p, ptr = some p → p < 65536 :=
      fun ptr hm => hall ptr (List.mem_cons_of_mem head hm)
    rcases hpp : passPointer (o idx) head with ⟨ptr2, ab⟩
    have hptr2 : ∀ p, ptr2 = some p → p < 65536 := by
      intro p hp
      exact passPointer_range (o idx) head hhead p (by rw [hpp]; exact hp)
    rw [hpp] at hmem
    cases ab
    · rcases hdr : driverRound o (idx + 1) rest with ⟨rest2, a2⟩
      rw [hdr] at hmem
      rcases List.mem_cons.mp hmem with rfl | hmem2
      · exact hptr2
      · have := ih (idx + 1) hrest ptr (by rw [hdr]; exact hmem2)
        exact this
    · rcases List.mem_cons.mp hmem with rfl | hmem2
      · exact hptr2
      · exact hrest ptr hmem2

/-- C10: starting from scan output (every `historyPointer` nil), at the
entry of every pass in every round the cursor is never a stored 0 — a
sensor that reached cursor 0 is `finished()` and filtered out before the
next round — and every stored cursor `p` satisfies `1 ≤ p < 65536`, so
the restore step's uint16 decrement never wraps:
`(p + 65535) % 65536 = p - 1 ≠ 65535`. -/
theorem C10_no_cursor_wrap (oracle : Nat → Nat → PassOracle) (fuel : Nat) :
    ∀ (round : Nat) (sensors : List (Option Nat)),
      (∀ ptr ∈ sensors, ∀ p, ptr = some p → 1 ≤ p ∧ p < 65536) →
      (sensorFinished (some 0) = true ∧ sensorFinished none = false) ∧
      ∀ st ∈ driverTrace oracle fuel round sensors, ∀ ptr ∈ st,
        ptr ≠ some 0 ∧
        ∀ p, ptr = some p → 1 ≤ p ∧ p < 65536 ∧ (p + 65535) % 65536 = p - 1 := by
  induction fuel with
  | zero =>
    intro round sensors hinit
    refine ⟨⟨rfl, rfl⟩, ?_⟩
    intro st hst ptr hmem
    rw [driverTrace, List.mem_singleton] at hst
    subst hst
    refine ⟨?_, ?_⟩
    · intro h0
      have := (hinit ptr hmem 0 h0).1
      omega
    · intro p hp
      obtain ⟨h1, h2⟩ := hinit ptr hmem p hp
      exact ⟨h1, h2, by omega⟩
  | succ fuel ih =>
    intro round sensors hinit
    refine ⟨⟨rfl, rfl⟩, ?_⟩
    intro st hst ptr hmem
    rw [driverTrace] at hst
    rcases List.mem_cons.mp hst with rfl | htail
    · refine ⟨?_, ?_⟩
      · intro h0
        have := (hinit ptr hmem 0 h0).1
        omega
      · intro p hp
        obtain ⟨h1, h2⟩ := hinit ptr hmem p hp
        exact ⟨h1, h2, by omega⟩
    · rcases hdr : driverRound (oracle round) 0 sensors with ⟨processed, ab⟩
      cases ab
      · simp only [hdr] at htail
        have hproc : ∀ ptr ∈ processed, ∀ p, ptr = some p → p < 65536 := by
          intro ptr2 hm p hp
          have h16 : ∀ ptr ∈ sensors, ∀ p, ptr = some p → p < 65536 :=
            fun ptr3 hm3 p3 hp3 => (hinit ptr3 hm3 p3 hp3).2
          exact driverRound_range (oracle round) sensors 0 h16 ptr2 (by rw [hdr]; exact hm) p hp
        have hnextinv : ∀ ptr ∈ processed.filter (fun ptr => !sensorFinished ptr),
            ∀ p, ptr = some p → 1 ≤ p ∧ p < 65536 := by
          intro ptr2 hm p hp
          obtain ⟨hmem2, hfin⟩ := List.mem_filter.mp hm
          refine ⟨?_, hproc ptr2 hmem2 p hp⟩
          subst hp
          rw [sensorFinished] at hfin
          simp only [Bool.not_eq_true'] at hfin
          have : ¬p = 0 := by
            intro h0
            subst h0
            simp at hfin
          omega
        rcases hfilt : processed.filter (fun ptr => !sensorFinished ptr) with _ | ⟨h1, t1⟩
        · rw [hfilt] at htail
          simp at htail
        · rw [hfilt] at htail
          have := (ih (round + 1) (h1 :: t1) (by rw [← hfilt]; exact hnextinv)).2
          exact this st htail ptr hmem
      · simp only [hdr] at htail
        simp at htail

/-- Witness for C10: one sensor, constant oracle (reported length 60,
every radio call succeeding), two rounds: the trace is `[[none], [some 9]]`
and the theorem's invariant holds of it. -/
theorem C10_no_cursor_wrap_witness :
    (∀ ptr ∈ ([none] : List (Option Nat)), ∀ p, ptr = some p → 1 ≤ p ∧ p < 65536) ∧
    ((sensorFinished (some 0) = true ∧ sensorFinished none = false) ∧
     ∀ st ∈ driverTrace (fun _ _ => ⟨true, true, true, 60, fun _ => true, fun _ => true⟩)
         2 0 [none],
       ∀ ptr ∈ st, ptr ≠ some 0 ∧
         ∀ p, ptr = some p → 1 ≤ p ∧ p < 65536 ∧ (p + 65535) % 65536 = p - 1) :=
  ⟨(by intro ptr hmem p hp; rw [List.mem_singleton] at hmem; rw [hmem] at hp; cases hp),
   C10_no_cursor_wrap (fun _ _ => ⟨true, true, true, 60, fun _ => true, fun _ => true⟩) 2 0 [none]
     (by intro ptr hmem p hp; rw [List.mem_singleton] at hmem; rw [hmem] at hp; cases hp)⟩
